import Mathlib

/-!
Verification of the lazy finite state machine interpreter
(lazy_state_machine/lazy_state_machine.py and its tests).

The interpreter is embedded shallowly: the transition rule supplied by the
caller is a function returning either a next state or one of the two failure
categories a Python callable can signal (IllegalTransitionError versus any
other exception); the interpreter operations return Except values whose error
constructors mirror the exception classes of exceptions.py. The payload of a
rule failure is modelled as a Nat standing for the identity of the underlying
Python exception object, so that propagation (kept) versus wrapping (dropped)
is observable in the model.
-/

/-- Failure categories a transition rule can signal: IllegalTransitionError
(with its payload, kept on propagation) or any other exception (with a payload
standing for the original fault, which the interpreter discards). -/
inductive RuleError where
  | illegal (info : Nat)
  | fault (info : Nat)
deriving DecidableEq, Repr

/-- The exception classes of lazy_state_machine/exceptions.py. -/
inductive FsmError where
  | invalidFinalStates
  | invalidInitialState
  | invalidState
  | invalidInputToken
  | illegalTransition (info : Nat)
  | transitionFunction
  | invalidFinalState
deriving DecidableEq, Repr

/-- The configuration held by LazyFiniteStateMachine after __init__: the
transition rule, the initial state q0, the state set Q, the final state set F
(already defaulted to Q when the caller omitted it) and the optional alphabet
sigma. Sets are carried as lists, queried by membership as frozensets are. -/
structure LazyFiniteStateMachine (S A : Type) where
  transition_delta : S → A → Except RuleError S
  initial_state_q0 : S
  all_states_Q : List S
  final_states_F : List S
  alphabet_sigma : Option (List A)

namespace LazyFiniteStateMachine

variable {S A : Type} [DecidableEq S] [DecidableEq A]

/-- LazyFiniteStateMachine.__init__: record the configuration, default
final_states_F to all_states_Q when absent, then validate that every final
state is in Q (InvalidFinalStatesError) and that q0 is in Q
(InvalidInitialStateError), in that order. -/
def init (transition_delta : S → A → Except RuleError S) (initial_state_q0 : S)
    (all_states_Q : List S) (final_states_F : Option (List S))
    (alphabet_sigma : Option (List A)) :
    Except FsmError (LazyFiniteStateMachine S A) :=
  let F := final_states_F.getD all_states_Q
  if ∀ f ∈ F, f ∈ all_states_Q then
    if initial_state_q0 ∈ all_states_Q then
      .ok ⟨transition_delta, initial_state_q0, all_states_Q, F, alphabet_sigma⟩
    else
      .error .invalidInitialState
  else
    .error .invalidFinalStates

/-- The construction-time invariants of __init__: F is a subset of Q and q0 is
in Q. A machine obtained from a successful init satisfies this. -/
def Valid (m : LazyFiniteStateMachine S A) : Prop :=
  (∀ f ∈ m.final_states_F, f ∈ m.all_states_Q) ∧
    m.initial_state_q0 ∈ m.all_states_Q

instance (m : LazyFiniteStateMachine S A) : Decidable m.Valid := by
  unfold Valid
  infer_instance

/-- LazyFiniteStateMachine.step: check the current state is in Q
(InvalidStateError), then, when an alphabet is declared, check the input
symbol is in it (InvalidInputTokenError), then invoke the rule — propagating
IllegalTransitionError unchanged and turning any other rule failure into
TransitionFunctionError — and finally check the new state is in Q
(InvalidStateError). -/
def step (m : LazyFiniteStateMachine S A) (current_state : S)
    (input_symbol : A) : Except FsmError S :=
  if current_state ∉ m.all_states_Q then
    .error .invalidState
  else if (match m.alphabet_sigma with
           | some sigma => decide (input_symbol ∉ sigma)
           | none => false) then
    .error .invalidInputToken
  else
    match m.transition_delta current_state input_symbol with
    | .error (.illegal info) => .error (.illegalTransition info)
    | .error (.fault _) => .error .transitionFunction
    | .ok new_state =>
      if new_state ∉ m.all_states_Q then
        .error .invalidState
      else
        .ok new_state

/-- The loop body of LazyFiniteStateMachine.process: starting from a given
state, step through each input in order, stopping at the first error. -/
def process_loop (m : LazyFiniteStateMachine S A) (state : S) :
    List A → Except FsmError S
  | [] => .ok state
  | val :: rest =>
    match m.step state val with
    | .error e => .error e
    | .ok new_state => m.process_loop new_state rest

/-- LazyFiniteStateMachine.process: run the loop from the initial state q0. -/
def process (m : LazyFiniteStateMachine S A) (inputs_sigma : List A) :
    Except FsmError S :=
  m.process_loop m.initial_state_q0 inputs_sigma

/-- LazyFiniteStateMachine.process_and_check: process the inputs, then fail
with InvalidFinalStateError if the final state is not in F, otherwise return
it. -/
def process_and_check (m : LazyFiniteStateMachine S A)
    (inputs_sigma : List A) : Except FsmError S :=
  match m.process inputs_sigma with
  | .error e => .error e
  | .ok final_state =>
    if final_state ∉ m.final_states_F then
      .error .invalidFinalState
    else
      .ok final_state

/-- Whether the declared alphabet (if any) accepts the input symbol; when no
alphabet was declared this is trivially true. -/
def alphabet_allows (m : LazyFiniteStateMachine S A) (input_symbol : A) :
    Prop :=
  match m.alphabet_sigma with
  | none => True
  | some sigma => input_symbol ∈ sigma

instance (m : LazyFiniteStateMachine S A) (input_symbol : A) :
    Decidable (m.alphabet_allows input_symbol) := by
  unfold alphabet_allows
  cases m.alphabet_sigma <;> infer_instance

end LazyFiniteStateMachine

deriving instance DecidableEq for Except

/-!
Concrete machines from the test suite.
-/

/-- The turnstile transition table of tests/test_turnstile.py. -/
def turnstile_state_transitions : List ((String × String) × String) :=
  [(("locked", "coin"), "unlocked"),
   (("locked", "push"), "locked"),
   (("unlocked", "coin"), "unlocked"),
   (("unlocked", "push"), "locked")]

/-- turnstile_transition_function: look up the pair in the table, raising
IllegalTransitionError when it is absent. -/
def turnstile_transition_function (state : String) (input_symbol : String) :
    Except RuleError String :=
  match turnstile_state_transitions.lookup (state, input_symbol) with
  | some new_state => .ok new_state
  | none => .error (.illegal 0)

/-- The turnstile machine of test_turnstile_simple: states {locked, unlocked},
alphabet {coin, push}, q0 = locked, F = all states. -/
def turnstile : LazyFiniteStateMachine String String :=
  { transition_delta := turnstile_transition_function
    initial_state_q0 := "locked"
    all_states_Q := ["locked", "unlocked"]
    final_states_F := ["locked", "unlocked"]
    alphabet_sigma := some ["coin", "push"] }

/-- A variant of the turnstile with no declared alphabet, so that unmapped
input symbols reach the transition rule and trigger its
IllegalTransitionError. -/
def turnstile_no_alphabet : LazyFiniteStateMachine String String :=
  { transition_delta := turnstile_transition_function
    initial_state_q0 := "locked"
    all_states_Q := ["locked", "unlocked"]
    final_states_F := ["locked", "unlocked"]
    alphabet_sigma := none }

/-- A variant of the turnstile whose only accepting state is unlocked; its
initial state locked is valid but not accepting. -/
def turnstile_unlocked_only : LazyFiniteStateMachine String String :=
  { transition_delta := turnstile_transition_function
    initial_state_q0 := "locked"
    all_states_Q := ["locked", "unlocked"]
    final_states_F := ["unlocked"]
    alphabet_sigma := some ["coin", "push"] }

/-- The states of the modulus-3 automaton of tests/test_modulus.py. -/
inductive States where
  | S0
  | S1
  | S2
deriving DecidableEq, Repr

/-- The binary digit symbols of tests/test_modulus.py. -/
inductive BinaryStringBit where
  | zero
  | one
deriving DecidableEq, Repr

/-- The state transition table of test_mod_three_explicit. -/
def state_transitions :
    List ((States × BinaryStringBit) × States) :=
  [((.S0, .zero), .S0),
   ((.S0, .one), .S1),
   ((.S1, .zero), .S2),
   ((.S1, .one), .S0),
   ((.S2, .zero), .S1),
   ((.S2, .one), .S2)]

/-- explicit_transition_function: dictionary lookup; an absent key would be a
KeyError, i.e. a generic rule fault, not an IllegalTransitionError. -/
def explicit_transition_function (state : States)
    (input_symbol : BinaryStringBit) : Except RuleError States :=
  match state_transitions.lookup (state, input_symbol) with
  | some new_state => .ok new_state
  | none => .error (.fault 0)

/-- The machine of test_mod_three_explicit: q0 = S0, Q = F = {S0, S1, S2},
no alphabet declared. -/
def mod3_machine : LazyFiniteStateMachine States BinaryStringBit :=
  { transition_delta := explicit_transition_function
    initial_state_q0 := .S0
    all_states_Q := [.S0, .S1, .S2]
    final_states_F := [.S0, .S1, .S2]
    alphabet_sigma := none }

/-- state_to_modulus_integer of test_mod_three_explicit. -/
def state_to_modulus_integer : States → Nat
  | .S0 => 0
  | .S1 => 1
  | .S2 => 2

/-- Binary digits of a positive number, most significant bit first (the digits
of Python format(n, "b")); the first argument is fuel bounding the recursion
depth, sufficient whenever it is at least the number itself. -/
def bin_digits_pos : Nat → Nat → List BinaryStringBit
  | 0, _ => []
  | _ + 1, 0 => []
  | fuel + 1, n + 1 =>
    bin_digits_pos fuel ((n + 1) / 2) ++
      [if (n + 1) % 2 = 1 then .one else .zero]

/-- The bit sequence the test feeds to the machine for a number n:
BinaryStringBit.bits_from_string(format(n, "b")), so the single digit zero
when n = 0 and the binary digits most significant bit first otherwise. -/
def bits_from_nat (n : Nat) : List BinaryStringBit :=
  if n = 0 then [.zero] else bin_digits_pos n n

/-!
Helper lemmas shared by the claims.
-/

namespace LazyFiniteStateMachine

variable {S A : Type} [DecidableEq S] [DecidableEq A]

/-- The process loop is the left fold of step in the Except monad. -/
lemma process_loop_eq_foldlM (m : LazyFiniteStateMachine S A) :
    ∀ (inputs : List A) (state : S),
      m.process_loop state inputs = inputs.foldlM m.step state := by
  intro inputs
  induction inputs with
  | nil =>
    intro state
    rfl
  | cons val rest ih =>
    intro state
    simp only [process_loop, List.foldlM_cons]
    cases h : m.step state val with
    | error e =>
      rfl
    | ok new_state =>
      exact ih new_state

/-- A successful step always returns a state inside Q: the last check of step
guarantees it regardless of the inputs. -/
lemma step_ok_mem (m : LazyFiniteStateMachine S A) (state : S)
    (input_symbol : A) (new_state : S)
    (h : m.step state input_symbol = .ok new_state) :
    new_state ∈ m.all_states_Q := by
  unfold step at h
  split at h
  · simp at h
  · split at h
    · simp at h
    · split at h
      · simp at h
      · simp at h
      · split at h
        · simp at h
        · rename_i hmem
          injection h with h
          subst h
          exact not_not.mp hmem

/-- When the current state is in Q and the alphabet (if declared) accepts the
input symbol, step reduces to invoking the rule and validating its result. -/
lemma step_eq_of_checks (m : LazyFiniteStateMachine S A) (current_state : S)
    (input_symbol : A) (hmem : current_state ∈ m.all_states_Q)
    (halpha : m.alphabet_allows input_symbol) :
    m.step current_state input_symbol =
      match m.transition_delta current_state input_symbol with
      | .error (.illegal info) => .error (.illegalTransition info)
      | .error (.fault _) => .error .transitionFunction
      | .ok new_state =>
        if new_state ∉ m.all_states_Q then .error .invalidState
        else .ok new_state := by
  unfold step
  rw [if_neg (not_not.mpr hmem)]
  have hcond : (match m.alphabet_sigma with
      | some sigma => decide (input_symbol ∉ sigma)
      | none => false) = false := by
    unfold alphabet_allows at halpha
    cases hs : m.alphabet_sigma with
    | none => rfl
    | some sigma =>
      rw [hs] at halpha
      have hin : input_symbol ∈ sigma := halpha
      simp [hin]
  rw [hcond]
  simp

/-- With no declared alphabet, step never fails with InvalidInputTokenError:
that error arises only from the alphabet membership check. -/
lemma step_ne_invalid_input_token (m : LazyFiniteStateMachine S A)
    (hnone : m.alphabet_sigma = none) (state : S) (input_symbol : A) :
    m.step state input_symbol ≠ .error .invalidInputToken := by
  intro h
  unfold step at h
  rw [hnone] at h
  split at h
  · simp at h
  · split at h
    · rename_i hc
      simp at hc
    · split at h
      · simp at h
      · simp at h
      · split at h
        · simp at h
        · simp at h

/-- Any successful run of the process loop from a state in Q ends in a state
in Q: the empty run returns the start state, and every step enforces the
result-state check. -/
lemma process_loop_ok_mem (m : LazyFiniteStateMachine S A) :
    ∀ (inputs : List A) (state final_state : S),
      state ∈ m.all_states_Q →
      m.process_loop state inputs = .ok final_state →
      final_state ∈ m.all_states_Q := by
  intro inputs
  induction inputs with
  | nil =>
    intro state final_state hmem h
    unfold process_loop at h
    injection h with h
    subst h
    exact hmem
  | cons val rest ih =>
    intro state final_state hmem h
    unfold process_loop at h
    split at h
    · simp at h
    · rename_i new_state hs
      exact ih new_state final_state (m.step_ok_mem state val new_state hs) h

end LazyFiniteStateMachine

/-!
The claims.
-/

/-- C1: For every valid Interpreter and every finite input sequence,
process(inputs) equals the left-fold of step over the inputs starting at the
configured initial state q0; in particular, process on an empty input
sequence returns q0 unchanged. -/
theorem process_eq_foldl {S A : Type} [DecidableEq S] [DecidableEq A]
    (m : LazyFiniteStateMachine S A) (_hv : m.Valid) (inputs : List A) :
    m.process inputs = List.foldlM m.step m.initial_state_q0 inputs ∧
      m.process ([] : List A) = .ok m.initial_state_q0 := by
  constructor
  · exact m.process_loop_eq_foldlM inputs m.initial_state_q0
  · rfl

/-- Witness for C1 at the turnstile machine. -/
theorem process_eq_foldl_witness :
    turnstile.Valid ∧
      (turnstile.process ["coin", "push"] =
          List.foldlM turnstile.step turnstile.initial_state_q0
            ["coin", "push"] ∧
        turnstile.process ([] : List String) =
          .ok turnstile.initial_state_q0) :=
  ⟨by decide, process_eq_foldl turnstile (by decide) ["coin", "push"]⟩

/-- C2: For every valid Interpreter and every input sequence on which process
succeeds, process_and_check returns the reached final state iff that state is
in F; if the reached state is not in F it fails with InvalidFinalStateError,
and any error raised by the underlying process call is propagated
unchanged. -/
theorem process_and_check_spec {S A : Type} [DecidableEq S] [DecidableEq A]
    (m : LazyFiniteStateMachine S A) (_hv : m.Valid) (inputs : List A) :
    (∀ final_state, m.process inputs = .ok final_state →
      (final_state ∈ m.final_states_F ↔
        m.process_and_check inputs = .ok final_state) ∧
      (final_state ∉ m.final_states_F →
        m.process_and_check inputs = .error .invalidFinalState)) ∧
    (∀ e, m.process inputs = .error e →
      m.process_and_check inputs = .error e) := by
  constructor
  · intro final_state hok
    have hpac : m.process_and_check inputs =
        if final_state ∉ m.final_states_F then .error .invalidFinalState
        else .ok final_state := by
      unfold LazyFiniteStateMachine.process_and_check
      rw [hok]
    constructor
    · constructor
      · intro hmem
        rw [hpac, if_neg (not_not.mpr hmem)]
      · intro h
        by_contra hmem
        rw [hpac, if_pos hmem] at h
        simp at h
    · intro hmem
      rw [hpac, if_pos hmem]
  · intro e he
    unfold LazyFiniteStateMachine.process_and_check
    rw [he]

/-- Witness for C2 at the turnstile machine. -/
theorem process_and_check_spec_witness :
    turnstile.Valid ∧
      ((∀ final_state,
          turnstile.process ["coin", "push"] = .ok final_state →
          (final_state ∈ turnstile.final_states_F ↔
            turnstile.process_and_check ["coin", "push"] = .ok final_state) ∧
          (final_state ∉ turnstile.final_states_F →
            turnstile.process_and_check ["coin", "push"] =
              .error .invalidFinalState)) ∧
        (∀ e, turnstile.process ["coin", "push"] = .error e →
          turnstile.process_and_check ["coin", "push"] = .error e)) :=
  ⟨by decide, process_and_check_spec turnstile (by decide) ["coin", "push"]⟩

/-- C3: step performs its checks in the fixed order: current-state membership
in Q (InvalidStateError), then, when an alphabet is declared, input-symbol
membership in it (InvalidInputTokenError), then rule invocation, then
result-state membership in Q (InvalidStateError); the earliest violated check
wins, so a current state outside Q always yields InvalidStateError, and with
an alphabet declared a symbol outside it always yields
InvalidInputTokenError. -/
theorem step_check_order {S A : Type} [DecidableEq S] [DecidableEq A]
    (m : LazyFiniteStateMachine S A) (current_state : S) (input_symbol : A) :
    (current_state ∉ m.all_states_Q →
      m.step current_state input_symbol = .error .invalidState) ∧
    (∀ sigma, m.alphabet_sigma = some sigma →
      current_state ∈ m.all_states_Q → input_symbol ∉ sigma →
      m.step current_state input_symbol = .error .invalidInputToken) ∧
    (current_state ∈ m.all_states_Q → m.alphabet_allows input_symbol →
      m.step current_state input_symbol =
        match m.transition_delta current_state input_symbol with
        | .error (.illegal info) => .error (.illegalTransition info)
        | .error (.fault _) => .error .transitionFunction
        | .ok new_state =>
          if new_state ∉ m.all_states_Q then .error .invalidState
          else .ok new_state) := by
  refine ⟨?_, ?_, ?_⟩
  · intro h
    unfold LazyFiniteStateMachine.step
    rw [if_pos h]
  · intro sigma hsig hmem hnot
    unfold LazyFiniteStateMachine.step
    rw [if_neg (not_not.mpr hmem), hsig]
    simp [hnot]
  · intro hmem halpha
    exact m.step_eq_of_checks current_state input_symbol hmem halpha

/-- Witness for C3: a current state outside Q (which is also outside the
alphabet) yields InvalidStateError at the turnstile machine. -/
theorem step_check_order_witness :
    "broken" ∉ turnstile.all_states_Q ∧
      turnstile.step "broken" "kick" = .error .invalidState :=
  ⟨by decide, (step_check_order turnstile "broken" "kick").1 (by decide)⟩

/-- C4: when the rule signals the illegal-transition condition, step fails
with IllegalTransitionError propagated unchanged (payload kept, not
TransitionFunctionError); when the rule fails for any other reason, step
fails with TransitionFunctionError whatever the original fault was, so the
fault is not re-exposed to the caller. -/
theorem step_rule_error_classification {S A : Type} [DecidableEq S]
    [DecidableEq A] (m : LazyFiniteStateMachine S A) (current_state : S)
    (input_symbol : A) (info : Nat)
    (hmem : current_state ∈ m.all_states_Q)
    (halpha : m.alphabet_allows input_symbol) :
    (m.transition_delta current_state input_symbol = .error (.illegal info) →
      m.step current_state input_symbol = .error (.illegalTransition info)) ∧
    (m.transition_delta current_state input_symbol = .error (.fault info) →
      m.step current_state input_symbol = .error .transitionFunction) := by
  rw [m.step_eq_of_checks current_state input_symbol hmem halpha]
  constructor
  · intro h
    rw [h]
  · intro h
    rw [h]

/-- Witness for C4: the turnstile transition table without a declared
alphabet signals an illegal transition on the unmapped pair
(locked, kick). -/
theorem step_rule_error_classification_witness :
    ("locked" ∈ turnstile_no_alphabet.all_states_Q ∧
        turnstile_no_alphabet.alphabet_allows "kick") ∧
      ((turnstile_no_alphabet.transition_delta "locked" "kick" =
          .error (.illegal 0) →
        turnstile_no_alphabet.step "locked" "kick" =
          .error (.illegalTransition 0)) ∧
      (turnstile_no_alphabet.transition_delta "locked" "kick" =
          .error (.fault 0) →
        turnstile_no_alphabet.step "locked" "kick" =
          .error .transitionFunction)) :=
  ⟨⟨by decide, by decide⟩,
    step_rule_error_classification turnstile_no_alphabet "locked" "kick" 0
      (by decide) (by decide)⟩

/-- C5: when some declared final state is absent from Q, construction fails
with InvalidFinalStatesError, and this check happens before the initial-state
check (it wins even when q0 is also invalid); when F is a subset of Q but q0
is not in Q, construction fails with InvalidInitialStateError. -/
theorem init_validation_order {S A : Type} [DecidableEq S] [DecidableEq A]
    (transition_delta : S → A → Except RuleError S) (q0 : S) (Q : List S)
    (F : Option (List S)) (sigma : Option (List A)) :
    (∀ fs, F = some fs → (∃ x ∈ fs, x ∉ Q) →
      LazyFiniteStateMachine.init transition_delta q0 Q F sigma =
        .error .invalidFinalStates) ∧
    ((∀ x ∈ F.getD Q, x ∈ Q) → q0 ∉ Q →
      LazyFiniteStateMachine.init transition_delta q0 Q F sigma =
        .error .invalidInitialState) := by
  constructor
  · intro fs hF hbad
    have hneg : ¬ ∀ x ∈ fs, x ∈ Q := by
      intro hall
      obtain ⟨x, hx, hnx⟩ := hbad
      exact hnx (hall x hx)
    unfold LazyFiniteStateMachine.init
    rw [hF]
    simp only [Option.getD_some]
    rw [if_neg hneg]
  · intro hsub hq0
    unfold LazyFiniteStateMachine.init
    rw [if_pos hsub, if_neg hq0]

/-- Witness for C5: a declared final state b outside Q = [a] makes
construction fail with InvalidFinalStatesError, even though q0 = c is also
invalid. -/
theorem init_validation_order_witness :
    some ["b"] = some ["b"] ∧ (∃ x ∈ ["b"], x ∉ ["a"]) ∧
      LazyFiniteStateMachine.init turnstile_transition_function "c" ["a"]
          (some ["b"]) none = .error .invalidFinalStates :=
  ⟨rfl, ⟨"b", by decide, by decide⟩,
    (init_validation_order turnstile_transition_function "c" ["a"]
        (some ["b"]) none).1 ["b"] rfl ⟨"b", by decide, by decide⟩⟩

/-- C6: when every final state is in Q and q0 is in Q, construction succeeds
and the machine holds exactly the supplied rule, q0, Q, F and sigma; an
omitted F defaults to all of Q, and with an omitted alphabet step never
rejects an input symbol with InvalidInputTokenError. -/
theorem init_success {S A : Type} [DecidableEq S] [DecidableEq A]
    (transition_delta : S → A → Except RuleError S) (q0 : S) (Q : List S)
    (F : Option (List S)) (sigma : Option (List A))
    (hF : ∀ f ∈ F.getD Q, f ∈ Q) (hq0 : q0 ∈ Q) :
    ∃ m : LazyFiniteStateMachine S A,
      LazyFiniteStateMachine.init transition_delta q0 Q F sigma = .ok m ∧
      m.transition_delta = transition_delta ∧
      m.initial_state_q0 = q0 ∧
      m.all_states_Q = Q ∧
      m.final_states_F = F.getD Q ∧
      m.alphabet_sigma = sigma ∧
      (sigma = none → ∀ state input_symbol,
        m.step state input_symbol ≠ .error .invalidInputToken) := by
  refine ⟨⟨transition_delta, q0, Q, F.getD Q, sigma⟩, ?_, rfl, rfl, rfl, rfl,
    rfl, ?_⟩
  · unfold LazyFiniteStateMachine.init
    rw [if_pos hF, if_pos hq0]
  · intro hnone state input_symbol
    exact LazyFiniteStateMachine.step_ne_invalid_input_token _ hnone state
      input_symbol

/-- Witness for C6 at the turnstile configuration with omitted F and omitted
alphabet. -/
theorem init_success_witness :
    (∀ f ∈ (none : Option (List String)).getD ["locked", "unlocked"],
        f ∈ ["locked", "unlocked"]) ∧
      "locked" ∈ ["locked", "unlocked"] ∧
      ∃ m : LazyFiniteStateMachine String String,
        LazyFiniteStateMachine.init turnstile_transition_function "locked"
            ["locked", "unlocked"] none none = .ok m ∧
        m.transition_delta = turnstile_transition_function ∧
        m.initial_state_q0 = "locked" ∧
        m.all_states_Q = ["locked", "unlocked"] ∧
        m.final_states_F =
          (none : Option (List String)).getD ["locked", "unlocked"] ∧
        m.alphabet_sigma = none ∧
        ((none : Option (List String)) = none → ∀ state input_symbol,
          m.step state input_symbol ≠ .error .invalidInputToken) :=
  ⟨by decide, by decide,
    init_success turnstile_transition_function "locked"
      ["locked", "unlocked"] none none (by decide) (by decide)⟩

set_option maxRecDepth 100000 in
/-- C7: for the modulus-3 automaton over {S0, S1, S2} with the standard
bit-shift transitions and initial state S0, processing the binary digits of
any n between 0 and 999 (most significant bit first) and mapping the final
state S0/S1/S2 to 0/1/2 yields exactly n mod 3. -/
theorem mod_three_correct : ∀ n : Nat, n ≤ 999 →
    (mod3_machine.process (bits_from_nat n)).map state_to_modulus_integer =
      .ok (n % 3) := by
  decide

/-- Witness for C7 at n = 5 (binary 101, remainder 2). -/
theorem mod_three_correct_witness :
    (5 : Nat) ≤ 999 ∧
      (mod3_machine.process (bits_from_nat 5)).map state_to_modulus_integer =
        .ok (5 % 3) :=
  ⟨by decide, mod_three_correct 5 (by decide)⟩

/-- C8: the turnstile machine on the input sequence
[coin, push, coin, push, push, push, push] succeeds and returns the final
state locked (both as plain processing and with the acceptance check of the
test). -/
theorem turnstile_simple :
    turnstile.process ["coin", "push", "coin", "push", "push", "push", "push"]
        = .ok "locked" ∧
      turnstile.process_and_check
          ["coin", "push", "coin", "push", "push", "push", "push"] =
        .ok "locked" := by
  constructor
  · decide
  · decide

/-- C9: for every validly constructed Interpreter, every state returned by a
successful step, process or process_and_check is a member of Q — including
the empty-input case of process, which returns q0, itself in Q by the
construction-time check. -/
theorem reachable_states_in_Q {S A : Type} [DecidableEq S] [DecidableEq A]
    (m : LazyFiniteStateMachine S A) (hv : m.Valid) :
    (∀ state input_symbol new_state,
      m.step state input_symbol = .ok new_state →
      new_state ∈ m.all_states_Q) ∧
    (∀ inputs final_state, m.process inputs = .ok final_state →
      final_state ∈ m.all_states_Q) ∧
    (∀ inputs final_state, m.process_and_check inputs = .ok final_state →
      final_state ∈ m.all_states_Q) ∧
    (m.process ([] : List A) = .ok m.initial_state_q0 ∧
      m.initial_state_q0 ∈ m.all_states_Q) := by
  have hproc : ∀ inputs final_state, m.process inputs = .ok final_state →
      final_state ∈ m.all_states_Q := by
    intro inputs final_state h
    exact m.process_loop_ok_mem inputs m.initial_state_q0 final_state hv.2 h
  refine ⟨?_, hproc, ?_, rfl, hv.2⟩
  · intro state input_symbol new_state h
    exact m.step_ok_mem state input_symbol new_state h
  · intro inputs final_state h
    unfold LazyFiniteStateMachine.process_and_check at h
    split at h
    · simp at h
    · rename_i processed hp
      split at h
      · simp at h
      · injection h with h
        subst h
        exact hproc inputs _ hp

/-- Witness for C9 at the turnstile machine. -/
theorem reachable_states_in_Q_witness :
    turnstile.Valid ∧
      ((∀ state input_symbol new_state,
          turnstile.step state input_symbol = .ok new_state →
          new_state ∈ turnstile.all_states_Q) ∧
        (∀ inputs final_state,
          turnstile.process inputs = .ok final_state →
          final_state ∈ turnstile.all_states_Q) ∧
        (∀ inputs final_state,
          turnstile.process_and_check inputs = .ok final_state →
          final_state ∈ turnstile.all_states_Q) ∧
        (turnstile.process ([] : List String) =
            .ok turnstile.initial_state_q0 ∧
          turnstile.initial_state_q0 ∈ turnstile.all_states_Q)) :=
  ⟨by decide, reachable_states_in_Q turnstile (by decide)⟩

/-- C10: process_and_check applies the acceptance check even when no
transition runs: on an empty input sequence it fails with
InvalidFinalStateError when q0 is not in F, and returns q0 when q0 is
in F. -/
theorem process_and_check_empty {S A : Type} [DecidableEq S] [DecidableEq A]
    (m : LazyFiniteStateMachine S A) (_hv : m.Valid) :
    (m.initial_state_q0 ∉ m.final_states_F →
      m.process_and_check ([] : List A) = .error .invalidFinalState) ∧
    (m.initial_state_q0 ∈ m.final_states_F →
      m.process_and_check ([] : List A) = .ok m.initial_state_q0) := by
  have hpac : m.process_and_check ([] : List A) =
      if m.initial_state_q0 ∉ m.final_states_F then
        .error .invalidFinalState
      else .ok m.initial_state_q0 := rfl
  constructor
  · intro h
    rw [hpac, if_pos h]
  · intro h
    rw [hpac, if_neg (not_not.mpr h)]

/-- Witness for C10 at the turnstile variant whose only accepting state is
unlocked, so its initial state locked is rejected on empty input. -/
theorem process_and_check_empty_witness :
    turnstile_unlocked_only.Valid ∧
      ((turnstile_unlocked_only.initial_state_q0 ∉
          turnstile_unlocked_only.final_states_F →
        turnstile_unlocked_only.process_and_check ([] : List String) =
          .error .invalidFinalState) ∧
      (turnstile_unlocked_only.initial_state_q0 ∈
          turnstile_unlocked_only.final_states_F →
        turnstile_unlocked_only.process_and_check ([] : List String) =
          .ok turnstile_unlocked_only.initial_state_q0)) :=
  ⟨by decide, process_and_check_empty turnstile_unlocked_only (by decide)⟩
